import Mathlib

/-!
Shallow embedding of `src/cordas_cria_features.py`.

The script builds a labeled dataset of spectral audio features from WAV
files named `corda{n}_{m}.wav`.  Numeric routines supplied by external
libraries (audio decoding, silence trimming, the STFT, the Mel filterbank,
the base-10 logarithm used by `power_to_db`) are opaque to the script and
are therefore taken as function parameters; everything the script itself
computes (normalization, time averaging, the dB conversion of
`librosa.power_to_db` with its `amin` floor and `top_db` clipping, the
enumeration loop, warning/skip behaviour, and the final saves) is embedded
exactly, over exact rational arithmetic.
-/

namespace CordasFeatures

/-- Configuration constant `SR = 22050` (sample rate). -/
def SR : ℚ := 22050

/-- Configuration constant `N_FFT = 2048`. -/
def N_FFT : ℕ := 2048

/-- Configuration constant `HOP_LENGTH = 512`. -/
def HOP_LENGTH : ℕ := 512

/-- Configuration constant `N_MELS = 40`. -/
def N_MELS : ℕ := 40

/-- Configuration constant `BASE_DIR`, the directory holding the WAV files. -/
def BASE_DIR : String := "/content/drive/MyDrive/cordas_amostras"

/-- Default `amin` argument of `librosa.power_to_db`: `1e-10`. -/
def AMIN : ℚ := 1 / 10 ^ 10

/-- Default `top_db` argument of `librosa.power_to_db`: `80.0`. -/
def TOP_DB : ℚ := 80

/-- Maximum of a list of rationals, as computed by `np.max`.
`np.max` raises on an empty array; we return `0` there, and every theorem
that depends on the maximum of a possibly-empty list carries a
nonemptiness hypothesis. -/
def vmax : List ℚ → ℚ
  | [] => 0
  | [x] => x
  | x :: y :: xs => max x (vmax (y :: xs))

/-- Arithmetic mean of a list, as computed by `np.mean` on a 1-D array. -/
def vmean (l : List ℚ) : ℚ := l.sum / l.length

/-- Per-row mean of a matrix given as a list of rows: `np.mean(M, axis=1)`
where axis 0 indexes frequency bins and axis 1 indexes time frames. -/
def rowMeans (M : List (List ℚ)) : List ℚ := M.map vmean

/-- Squared magnitude of a complex number given as a pair (re, im):
models the entrywise `np.abs(X)**2` applied to the complex STFT matrix. -/
def cabs2 (z : ℚ × ℚ) : ℚ := z.1 ^ 2 + z.2 ^ 2

/-- Basic lemmas about `vmax`. -/
theorem vmax_nil : vmax [] = 0 := rfl

theorem vmax_singleton (x : ℚ) : vmax [x] = x := rfl

theorem vmax_cons_cons (x y : ℚ) (xs : List ℚ) :
    vmax (x :: y :: xs) = max x (vmax (y :: xs)) := rfl

/-- Every member of a list is at most its `vmax`. -/
theorem le_vmax_of_mem {l : List ℚ} {x : ℚ} (hx : x ∈ l) : x ≤ vmax l := by
  induction l with
  | nil => cases hx
  | cons a t ih =>
    cases t with
    | nil =>
      rcases List.mem_cons.mp hx with h | h
      · simp [vmax_singleton, h]
      · cases h
    | cons b u =>
      rw [vmax_cons_cons]
      rcases List.mem_cons.mp hx with h | h
      · exact h ▸ le_max_left _ _
      · exact le_trans (ih h) (le_max_right _ _)

/-- The `vmax` of a nonempty list is a member of the list. -/
theorem vmax_mem {l : List ℚ} (hl : l ≠ []) : vmax l ∈ l := by
  induction l with
  | nil => exact absurd rfl hl
  | cons a t ih =>
    cases t with
    | nil => simp [vmax_singleton]
    | cons b u =>
      rw [vmax_cons_cons]
      rcases le_total a (vmax (b :: u)) with h | h
      · rw [max_eq_right h]
        exact List.mem_cons_of_mem _ (ih (by simp))
      · rw [max_eq_left h]
        exact List.mem_cons_self _ _

/-- If every member of a nonempty list is at most `c`, so is its `vmax`. -/
theorem vmax_le {l : List ℚ} {c : ℚ} (hl : l ≠ []) (h : ∀ x ∈ l, x ≤ c) :
    vmax l ≤ c :=
  h _ (vmax_mem hl)

/-- Embedding of `librosa.power_to_db(S, ref=np.max, amin, top_db)` on a 1-D
array, following the library source: `magnitude = np.abs(S)`;
`ref_value = np.max(magnitude)` (the callable `ref=np.max` applied to the
input); `log_spec = 10*log10(np.maximum(amin, magnitude))
- 10*log10(np.maximum(amin, ref_value))`; finally
`log_spec = np.maximum(log_spec, log_spec.max() - top_db)`.
The base-10 logarithm is opaque numeric code and is passed as the
parameter `log10`. -/
def power_to_db (log10 : ℚ → ℚ) (amin top_db : ℚ) (S : List ℚ) : List ℚ :=
  let magnitude := S.map abs
  let ref_value := vmax magnitude
  let log_spec := magnitude.map
    (fun x => 10 * log10 (max amin x) - 10 * log10 (max amin ref_value))
  log_spec.map (fun x => max x (vmax log_spec - top_db))

/-- Embedding of `np.linspace(a, b, num)`: `num` evenly spaced points from
`a` to `b`, endpoints included. -/
def linspace (a b : ℚ) (num : ℕ) : List ℚ :=
  (List.range num).map (fun i : ℕ => a + (b - a) * (i : ℚ) / ((num - 1 : ℕ) : ℚ))

/-- Embedding of `espectro_fft_medio(y, sr, n_fft, hop_length)`.
`stft` abstracts `librosa.stft(y, n_fft=..., hop_length=..., window=hann)`,
returning the complex STFT matrix as a list of `n_fft/2 + 1` rows (one per
frequency bin), each row listing the (re, im) entries of the time frames.
The function then forms the power `np.abs(X)**2`, averages over time
frames, converts to dB with `librosa.power_to_db(·, ref=np.max)`, and
pairs the result with `np.linspace(0, sr/2, len(mag_mean))`. -/
def espectro_fft_medio (log10 : ℚ → ℚ)
    (stft : ℕ → ℕ → List ℚ → List (List (ℚ × ℚ)))
    (y : List ℚ) (sr : ℚ) (n_fft hop_length : ℕ) : List ℚ × List ℚ :=
  let X := stft n_fft hop_length y
  let mag := X.map (fun row => row.map cabs2)
  let mag_mean := rowMeans mag
  let mag_db := power_to_db log10 AMIN TOP_DB mag_mean
  let freqs := linspace 0 (sr / 2) mag_mean.length
  (freqs, mag_db)

/-- Embedding of `espectro_mel_medio(y, sr, n_fft, hop_length, n_mels)`.
`melspectrogram` abstracts `librosa.feature.melspectrogram(y=y, sr=sr,
n_fft=..., hop_length=..., n_mels=..., power=2.0)`, returning a list of
`n_mels` rows of per-frame Mel-filtered powers; `mel_frequencies`
abstracts `librosa.mel_frequencies(n_mels=..., fmin=0, fmax=sr/2)`.  The
function averages the Mel powers over time frames and converts to dB with
`librosa.power_to_db(·, ref=np.max)`. -/
def espectro_mel_medio (log10 : ℚ → ℚ)
    (melspectrogram : ℕ → ℕ → ℕ → List ℚ → ℚ → List (List ℚ))
    (mel_frequencies : ℕ → ℚ → ℚ → List ℚ)
    (y : List ℚ) (sr : ℚ) (n_fft hop_length n_mels : ℕ) : List ℚ × List ℚ :=
  let S_mel := melspectrogram n_fft hop_length n_mels y sr
  let S_mel_mean := rowMeans S_mel
  let S_mel_db := power_to_db log10 AMIN TOP_DB S_mel_mean
  let mel_freqs := mel_frequencies n_mels 0 (sr / 2)
  (mel_freqs, S_mel_db)

/-- Embedding of `carregar_limpar_audio(path, sr, top_db)`.
`load` abstracts `librosa.load(path, sr=sr)` (returning `none` when the
decoder raises); `trim` abstracts `librosa.effects.trim(y, top_db=...)`.
The function itself then normalizes the trimmed signal by dividing every
sample by `np.max(np.abs(y_trim)) + 1e-9` and returns it with the sample
rate. -/
def carregar_limpar_audio (load : String → ℚ → Option (List ℚ))
    (trim : ℚ → List ℚ → List ℚ) (path : String) (sr top_db : ℚ) :
    Option (List ℚ × ℚ) :=
  (load path sr).map (fun y =>
    let y_trim := trim top_db y
    let max_abs := vmax (y_trim.map abs) + 1 / 10 ^ 9
    (y_trim.map (fun s => s / max_abs), sr))

/-- Console events and file writes of the main script, in order. -/
inductive Ev where
  /-- The warning line printed for an absent expected file. -/
  | warn (path : String)
  /-- The progress line printed before processing a present file. -/
  | processing (path : String)
  /-- A call to `np.save(name, ·)`. -/
  | save (name : String)
  deriving DecidableEq, Repr

/-- Whether an event is a file write (`np.save`). -/
def Ev.isSave : Ev → Bool
  | Ev.save _ => true
  | _ => false

/-- The expected filename `corda{n}_{m}.wav`. -/
def filename (n m : ℕ) : String :=
  "corda" ++ toString n ++ "_" ++ toString m ++ ".wav"

/-- The expected path `os.path.join(BASE_DIR, filename)`. -/
def filepath (n m : ℕ) : String := BASE_DIR ++ "/" ++ filename n m

/-- The enumeration order of the main loop: outer loop `n` in `1..6`
(`range(1, 7)`), inner loop `m` in `1..30` (`range(1, 31)`). -/
def expectedPairs : List (ℕ × ℕ) :=
  (List.range' 1 6).flatMap (fun n => (List.range' 1 30).map (fun m => (n, m)))

/-- State produced by the accumulation loop: the trace of console events,
the three accumulating sequences `X_fft_list`, `X_mel_list`, `y_labels`,
and whether an uncaught decode error aborted the run. -/
structure LoopState where
  trace : List Ev
  xfft : List (List ℚ)
  xmel : List (List ℚ)
  labels : List ℕ
  aborted : Bool
  deriving DecidableEq, Repr

/-- The main accumulation loop over a list of `(n, m)` pairs.
`present` abstracts `os.path.isfile`; `proc` abstracts the per-file body
(`carregar_limpar_audio` followed by `espectro_fft_medio` and
`espectro_mel_medio`), yielding the pair `(fft_db, mel_db)` or `none` when
decoding raises.  An absent file emits a warning and is skipped; a
present file emits a progress event and either appends `(fft_db, mel_db,
n)` to the three sequences or, on a decode error, aborts the whole run
(no exception handler exists in the script). -/
def loop (present : String → Bool) (proc : String → Option (List ℚ × List ℚ)) :
    List (ℕ × ℕ) → LoopState
  | [] => ⟨[], [], [], [], false⟩
  | (n, m) :: rest =>
    let path := filepath n m
    if present path then
      match proc path with
      | none => ⟨[Ev.processing path], [], [], [], true⟩
      | some fm =>
        let s := loop present proc rest
        ⟨Ev.processing path :: s.trace, fm.1 :: s.xfft, fm.2 :: s.xmel,
          n :: s.labels, s.aborted⟩
    else
      let s := loop present proc rest
      ⟨Ev.warn path :: s.trace, s.xfft, s.xmel, s.labels, s.aborted⟩

/-- The three `np.save` calls at the end of the script, in order. -/
def saves : List Ev :=
  [Ev.save "X_fft.npy", Ev.save "X_mel.npy", Ev.save "y_labels.npy"]

/-- A whole run of the script: the loop over all 180 expected names,
followed (only when no uncaught error aborted the loop) by the three
`np.save` calls.  Returns the full event trace and, on success, the three
finalized arrays `(X_fft, X_mel, y_labels)`. -/
def run (present : String → Bool) (proc : String → Option (List ℚ × List ℚ)) :
    List Ev × Option (List (List ℚ) × List (List ℚ) × List ℕ) :=
  let s := loop present proc expectedPairs
  if s.aborted then (s.trace, none)
  else (s.trace ++ saves, some (s.xfft, s.xmel, s.labels))

/-- The sublist of pairs whose file is present, in discovery order. -/
def presentPairs (present : String → Bool) (pairs : List (ℕ × ℕ)) :
    List (ℕ × ℕ) :=
  pairs.filter (fun nm => present (filepath nm.1 nm.2))

/-- Reads a decimal number from the front of a character list. -/
def digitsToNat : List Char → ℕ → ℕ × List Char
  | [], acc => (acc, [])
  | c :: cs, acc =>
    if c.isDigit then digitsToNat cs (acc * 10 + (c.toNat - 48))
    else (acc, c :: cs)

/-- Recovers `(n, m)` from the path `filepath n m`: skips the 44
characters of `BASE_DIR ++ "/corda"`, reads `n`, skips the underscore,
reads `m`.  Used only to establish that distinct expected pairs yield
distinct paths. -/
def decodePair (s : String) : ℕ × ℕ :=
  let cs := s.data.drop 44
  let p := digitsToNat cs 0
  let q := digitsToNat (p.2.drop 1) 0
  (p.1, q.1)

set_option maxRecDepth 100000

/-- On every expected pair, `decodePair` inverts `filepath`. -/
theorem decode_filepath :
    ∀ nm ∈ expectedPairs, decodePair (filepath nm.1 nm.2) = nm := by decide

/-- The 180 expected pairs are pairwise distinct. -/
theorem expectedPairs_nodup : expectedPairs.Nodup := by decide

/-- There are 180 expected pairs. -/
theorem expectedPairs_length : expectedPairs.length = 180 := by decide

/-- Distinct expected pairs give distinct paths. -/
theorem filepath_injOn :
    ∀ p ∈ expectedPairs, ∀ q ∈ expectedPairs,
      filepath p.1 p.2 = filepath q.1 q.2 → p = q := by
  intro p hp q hq h
  have h1 := decode_filepath p hp
  have h2 := decode_filepath q hq
  rw [← h1, ← h2, h]

/-- Unfolding the loop on an absent file: warn and skip. -/
theorem loop_cons_absent (present : String → Bool)
    (proc : String → Option (List ℚ × List ℚ)) (n m : ℕ)
    (rest : List (ℕ × ℕ)) (h : present (filepath n m) = false) :
    loop present proc ((n, m) :: rest) =
      ⟨Ev.warn (filepath n m) :: (loop present proc rest).trace,
        (loop present proc rest).xfft, (loop present proc rest).xmel,
        (loop present proc rest).labels, (loop present proc rest).aborted⟩ := by
  simp [loop, h]

/-- Unfolding the loop on a present file that decodes: process and append. -/
theorem loop_cons_some (present : String → Bool)
    (proc : String → Option (List ℚ × List ℚ)) (n m : ℕ)
    (rest : List (ℕ × ℕ)) (fm : List ℚ × List ℚ)
    (h : present (filepath n m) = true)
    (hp : proc (filepath n m) = some fm) :
    loop present proc ((n, m) :: rest) =
      ⟨Ev.processing (filepath n m) :: (loop present proc rest).trace,
        fm.1 :: (loop present proc rest).xfft,
        fm.2 :: (loop present proc rest).xmel,
        n :: (loop present proc rest).labels,
        (loop present proc rest).aborted⟩ := by
  simp [loop, h, hp]

/-- Unfolding the loop on a present file whose decoding raises: the whole
run aborts. -/
theorem loop_cons_none (present : String → Bool)
    (proc : String → Option (List ℚ × List ℚ)) (n m : ℕ)
    (rest : List (ℕ × ℕ)) (h : present (filepath n m) = true)
    (hp : proc (filepath n m) = none) :
    loop present proc ((n, m) :: rest) =
      ⟨[Ev.processing (filepath n m)], [], [], [], true⟩ := by
  simp [loop, h, hp]

/-- The console trace the loop produces when no decode error occurs: one
progress line per present file, one warning line per absent file, in
enumeration order. -/
def traceOf (present : String → Bool) (pairs : List (ℕ × ℕ)) : List Ev :=
  pairs.flatMap (fun nm =>
    if present (filepath nm.1 nm.2) then [Ev.processing (filepath nm.1 nm.2)]
    else [Ev.warn (filepath nm.1 nm.2)])

/-- Master description of the accumulation loop when every present file
decodes: the run does not abort, the trace is one line per candidate, the
labels are the first components of the present pairs in discovery order,
the two feature lists have one entry per present pair, and position `i`
of each of the three sequences comes from the `i`-th present pair. -/
theorem loop_spec (present : String → Bool)
    (proc : String → Option (List ℚ × List ℚ)) :
    ∀ pairs : List (ℕ × ℕ),
    (∀ nm ∈ pairs, present (filepath nm.1 nm.2) = true →
      (proc (filepath nm.1 nm.2)).isSome) →
    (loop present proc pairs).aborted = false ∧
    (loop present proc pairs).trace = traceOf present pairs ∧
    (loop present proc pairs).labels =
      (presentPairs present pairs).map Prod.fst ∧
    (loop present proc pairs).xfft.length =
      (presentPairs present pairs).length ∧
    (loop present proc pairs).xmel.length =
      (presentPairs present pairs).length ∧
    ∀ (i : ℕ) (nm : ℕ × ℕ), (presentPairs present pairs)[i]? = some nm →
      (loop present proc pairs).labels[i]? = some nm.1 ∧
      (loop present proc pairs).xfft[i]? =
        (proc (filepath nm.1 nm.2)).map Prod.fst ∧
      (loop present proc pairs).xmel[i]? =
        (proc (filepath nm.1 nm.2)).map Prod.snd := by
  intro pairs
  induction pairs with
  | nil =>
    intro _
    refine ⟨rfl, rfl, rfl, rfl, rfl, ?_⟩
    intro i nm h
    simp [presentPairs] at h
  | cons hd tl ih =>
    intro hok
    obtain ⟨n, m⟩ := hd
    obtain ⟨ih1, ih2, ih3, ih4, ih5, ih6⟩ :=
      ih (fun nm h hp => hok nm (List.mem_cons_of_mem _ h) hp)
    by_cases hpres : present (filepath n m) = true
    · have hsome := hok (n, m) (List.mem_cons_self _ _) hpres
      obtain ⟨fm, hfm⟩ := Option.isSome_iff_exists.mp hsome
      rw [loop_cons_some present proc n m tl fm hpres hfm]
      have hpp : presentPairs present ((n, m) :: tl) =
          (n, m) :: presentPairs present tl := by
        simp [presentPairs, List.filter_cons, hpres]
      have htr : traceOf present ((n, m) :: tl) =
          Ev.processing (filepath n m) :: traceOf present tl := by
        simp [traceOf, hpres]
      refine ⟨ih1, ?_, ?_, ?_, ?_, ?_⟩
      · simpa [htr] using ih2
      · simp [hpp, ih3]
      · simp [hpp, ih4]
      · simp [hpp, ih5]
      · intro i nm h
        rw [hpp] at h
        match i with
        | 0 =>
          rw [List.getElem?_cons_zero] at h
          obtain rfl : (n, m) = nm := by injection h
          exact ⟨by simp, by simp [hfm], by simp [hfm]⟩
        | i + 1 =>
          rw [List.getElem?_cons_succ] at h
          obtain ⟨h1, h2, h3⟩ := ih6 i nm h
          exact ⟨by simpa using h1, by simpa using h2, by simpa using h3⟩
    · have hpres' : present (filepath n m) = false := by
        simpa using hpres
      rw [loop_cons_absent present proc n m tl hpres']
      have hpp : presentPairs present ((n, m) :: tl) =
          presentPairs present tl := by
        simp [presentPairs, List.filter_cons, hpres']
      have htr : traceOf present ((n, m) :: tl) =
          Ev.warn (filepath n m) :: traceOf present tl := by
        simp [traceOf, hpres']
      refine ⟨ih1, ?_, ?_, ?_, ?_, ?_⟩
      · simpa [htr] using ih2
      · simpa [hpp] using ih3
      · simpa [hpp] using ih4
      · simpa [hpp] using ih5
      · intro i nm h
        rw [hpp] at h
        exact ih6 i nm h

/-- No iteration of the accumulation loop performs a file write. -/
theorem loop_no_save (present : String → Bool)
    (proc : String → Option (List ℚ × List ℚ)) :
    ∀ pairs : List (ℕ × ℕ), ∀ e ∈ (loop present proc pairs).trace,
      e.isSave = false := by
  intro pairs
  induction pairs with
  | nil => intro e he; cases he
  | cons hd tl ih =>
    obtain ⟨n, m⟩ := hd
    by_cases hpres : present (filepath n m) = true
    · cases hp : proc (filepath n m) with
      | none =>
        rw [loop_cons_none present proc n m tl hpres hp]
        intro e he
        rcases List.mem_singleton.mp he with rfl
        rfl
      | some fm =>
        rw [loop_cons_some present proc n m tl fm hpres hp]
        intro e he
        rcases List.mem_cons.mp he with rfl | he
        · rfl
        · exact ih e he
    · have hpres' : present (filepath n m) = false := by simpa using hpres
      rw [loop_cons_absent present proc n m tl hpres']
      intro e he
      rcases List.mem_cons.mp he with rfl | he
      · rfl
      · exact ih e he

/-- If some present file fails to decode, the loop aborts. -/
theorem loop_aborted_of_fail (present : String → Bool)
    (proc : String → Option (List ℚ × List ℚ)) :
    ∀ pairs : List (ℕ × ℕ),
      (∃ nm ∈ pairs, present (filepath nm.1 nm.2) = true ∧
        proc (filepath nm.1 nm.2) = none) →
      (loop present proc pairs).aborted = true := by
  intro pairs
  induction pairs with
  | nil => rintro ⟨nm, hnm, -⟩; cases hnm
  | cons hd tl ih =>
    rintro ⟨nm, hnm, hp, hn⟩
    obtain ⟨n, m⟩ := hd
    by_cases hpres : present (filepath n m) = true
    · cases hproc : proc (filepath n m) with
      | none => rw [loop_cons_none present proc n m tl hpres hproc]
      | some fm =>
        rw [loop_cons_some present proc n m tl fm hpres hproc]
        rcases List.mem_cons.mp hnm with rfl | hnm'
        · rw [hproc] at hn; cases hn
        · exact ih ⟨nm, hnm', hp, hn⟩
    · have hpres' : present (filepath n m) = false := by simpa using hpres
      rw [loop_cons_absent present proc n m tl hpres']
      rcases List.mem_cons.mp hnm with rfl | hnm'
      · rw [hpres'] at hp; cases hp
      · exact ih ⟨nm, hnm', hp, hn⟩

/-- A warning for a path no pair of the enumeration maps to never occurs. -/
theorem count_warn_traceOf_zero (present : String → Bool) (t : String) :
    ∀ pairs : List (ℕ × ℕ),
      (∀ q ∈ pairs, filepath q.1 q.2 ≠ t) →
      (traceOf present pairs).count (Ev.warn t) = 0 := by
  intro pairs
  induction pairs with
  | nil => intro _; rfl
  | cons hd tl ih =>
    intro hno
    have hhd : filepath hd.1 hd.2 ≠ t := hno hd (List.mem_cons_self _ _)
    have htl := ih (fun q hq => hno q (List.mem_cons_of_mem _ hq))
    by_cases hpres : present (filepath hd.1 hd.2) = true
    · simp [traceOf, hpres, List.count_cons] at htl ⊢
      simpa [traceOf] using htl
    · have hpres' : present (filepath hd.1 hd.2) = false := by simpa using hpres
      simp [traceOf, hpres', List.count_cons, hhd] at htl ⊢
      simpa [traceOf] using htl

/-- Exactly one warning is printed for an absent expected file, provided
the enumeration visits its pair exactly once and no other pair maps to
the same path. -/
theorem count_warn_traceOf_one (present : String → Bool) (n₀ m₀ : ℕ) :
    ∀ pairs : List (ℕ × ℕ),
      (n₀, m₀) ∈ pairs →
      present (filepath n₀ m₀) = false →
      pairs.Nodup →
      (∀ q ∈ pairs, filepath q.1 q.2 = filepath n₀ m₀ → q = (n₀, m₀)) →
      (traceOf present pairs).count (Ev.warn (filepath n₀ m₀)) = 1 := by
  intro pairs
  induction pairs with
  | nil => intro hmem; cases hmem
  | cons hd tl ih =>
    intro hmem habs hnodup hinj
    rcases List.mem_cons.mp hmem with heq | hmem'
    · subst heq
      have hnotin : (n₀, m₀) ∉ tl := (List.nodup_cons.mp hnodup).1
      have hrest : (traceOf present tl).count (Ev.warn (filepath n₀ m₀)) = 0 := by
        refine count_warn_traceOf_zero present _ tl (fun q hq hfp => ?_)
        exact hnotin (hinj q (List.mem_cons_of_mem _ hq) hfp ▸ hq)
      simp [traceOf, habs, List.count_cons]
      simpa [traceOf] using hrest
    · have hne : hd ≠ (n₀, m₀) := by
        rintro rfl
        exact (List.nodup_cons.mp hnodup).1 hmem'
      have hfne : filepath hd.1 hd.2 ≠ filepath n₀ m₀ := fun hfp =>
        hne (hinj hd (List.mem_cons_self _ _) hfp)
      have htl := ih hmem' habs (List.nodup_cons.mp hnodup).2
        (fun q hq hfp => hinj q (List.mem_cons_of_mem _ hq) hfp)
      by_cases hpres : present (filepath hd.1 hd.2) = true
      · simp [traceOf, hpres, List.count_cons]
        simpa [traceOf] using htl
      · have hpres' : present (filepath hd.1 hd.2) = false := by simpa using hpres
        simp [traceOf, hpres', List.count_cons, hfne]
        simpa [traceOf] using htl

/-- Unfolding of `power_to_db` with its lets expanded. -/
theorem power_to_db_def (log10 : ℚ → ℚ) (amin top_db : ℚ) (S : List ℚ) :
    power_to_db log10 amin top_db S =
      ((S.map abs).map (fun x =>
          10 * log10 (max amin x) - 10 * log10 (max amin (vmax (S.map abs))))).map
        (fun x =>
          max x (vmax ((S.map abs).map (fun x =>
            10 * log10 (max amin x) - 10 * log10 (max amin (vmax (S.map abs))))) -
              top_db)) := rfl

/-- Before clipping, every entry of the dB spectrum is nonpositive: its
power is at most the reference, which is the maximum of the array. -/
theorem logspec_le_zero (log10 : ℚ → ℚ) (hmono : Monotone log10)
    (amin : ℚ) (S : List ℚ) :
    ∀ v ∈ (S.map abs).map (fun x =>
        10 * log10 (max amin x) - 10 * log10 (max amin (vmax (S.map abs)))),
      v ≤ 0 := by
  intro v hv
  rcases List.mem_map.mp hv with ⟨x, hx, rfl⟩
  have hle : x ≤ vmax (S.map abs) := le_vmax_of_mem hx
  have := hmono (max_le_max (le_refl amin) hle)
  linarith

/-- Before clipping, the maximum entry of the dB spectrum is `0`: the
reference `ref=np.max` is the maximum of the array itself. -/
theorem vmax_logspec (log10 : ℚ → ℚ) (hmono : Monotone log10)
    (amin : ℚ) {S : List ℚ} (hS : S ≠ []) :
    vmax ((S.map abs).map (fun x =>
      10 * log10 (max amin x) - 10 * log10 (max amin (vmax (S.map abs))))) = 0 := by
  have hmag : S.map abs ≠ [] := by
    cases S with
    | nil => exact absurd rfl hS
    | cons a t => simp
  have href : vmax (S.map abs) ∈ S.map abs := vmax_mem hmag
  have h0 : (0 : ℚ) ∈ (S.map abs).map (fun x =>
      10 * log10 (max amin x) - 10 * log10 (max amin (vmax (S.map abs)))) :=
    List.mem_map.mpr ⟨vmax (S.map abs), href, by ring⟩
  exact le_antisymm
    (vmax_le (List.ne_nil_of_mem h0) (logspec_le_zero log10 hmono amin S))
    (le_vmax_of_mem h0)

/-- Every entry of `power_to_db(·, ref=np.max, amin, top_db)` lies in
`[-top_db, 0]` for a nonempty input and nonnegative `top_db`. -/
theorem power_to_db_mem_bounds (log10 : ℚ → ℚ) (hmono : Monotone log10)
    (amin top_db : ℚ) (htop : 0 ≤ top_db) {S : List ℚ} (hS : S ≠ []) :
    ∀ v ∈ power_to_db log10 amin top_db S, -top_db ≤ v ∧ v ≤ 0 := by
  intro v hv
  rw [power_to_db_def, vmax_logspec log10 hmono amin hS] at hv
  rcases List.mem_map.mp hv with ⟨x, hx, rfl⟩
  have hx0 : x ≤ 0 := logspec_le_zero log10 hmono amin S x hx
  constructor
  · rw [zero_sub]
    exact le_max_right _ _
  · rw [zero_sub]
    exact max_le hx0 (by linarith)

/-- The maximum entry of `power_to_db(·, ref=np.max, amin, top_db)` is `0`
for a nonempty input and nonnegative `top_db`. -/
theorem power_to_db_vmax_zero (log10 : ℚ → ℚ) (hmono : Monotone log10)
    (amin top_db : ℚ) (htop : 0 ≤ top_db) {S : List ℚ} (hS : S ≠ []) :
    vmax (power_to_db log10 amin top_db S) = 0 := by
  have hmag : S.map abs ≠ [] := by
    cases S with
    | nil => exact absurd rfl hS
    | cons a t => simp
  have href : vmax (S.map abs) ∈ S.map abs := vmax_mem hmag
  have h0 : (0 : ℚ) ∈ (S.map abs).map (fun x =>
      10 * log10 (max amin x) - 10 * log10 (max amin (vmax (S.map abs)))) :=
    List.mem_map.mpr ⟨vmax (S.map abs), href, by ring⟩
  have hmem0 : (0 : ℚ) ∈ power_to_db log10 amin top_db S := by
    rw [power_to_db_def, vmax_logspec log10 hmono amin hS]
    refine List.mem_map.mpr ⟨0, h0, ?_⟩
    rw [zero_sub, max_eq_left (by linarith)]
  refine le_antisymm ?_ (le_vmax_of_mem hmem0)
  refine vmax_le (List.ne_nil_of_mem hmem0) ?_
  intro v hv
  exact (power_to_db_mem_bounds log10 hmono amin top_db htop hS v hv).2

/-- The dB conversion preserves the length of its input. -/
theorem power_to_db_length (log10 : ℚ → ℚ) (amin top_db : ℚ) (S : List ℚ) :
    (power_to_db log10 amin top_db S).length = S.length := by
  rw [power_to_db_def]
  simp

/-- Closed form of `power_to_db(·, ref=np.max, amin, top_db)` when every
entry of the input is at least `amin`: the `amin` floor is inactive, and
each entry is `10*log10(power/reference)` clipped from below at
`-top_db`, where the reference is the maximum of the input. -/
theorem power_to_db_formula (log10 : ℚ → ℚ) (hmono : Monotone log10)
    (hdiv : ∀ a b : ℚ, 0 < a → 0 < b → log10 (a / b) = log10 a - log10 b)
    (amin top_db : ℚ) (hamin : 0 < amin) {S : List ℚ}
    (hge : ∀ p ∈ S, amin ≤ p) :
    power_to_db log10 amin top_db S =
      S.map (fun p => max (10 * log10 (p / vmax S)) (-top_db)) := by
  rcases eq_or_ne S [] with rfl | hS
  · rfl
  have hpos : ∀ p ∈ S, 0 < p := fun p hp => lt_of_lt_of_le hamin (hge p hp)
  have habs : S.map abs = S := by
    have : S.map abs = S.map (fun p => p) :=
      List.map_congr_left (fun p hp => abs_of_pos (hpos p hp))
    simpa using this
  have href_mem : vmax S ∈ S := vmax_mem hS
  have href_pos : 0 < vmax S := hpos _ href_mem
  have href_ge : amin ≤ vmax S := hge _ href_mem
  have hvz := vmax_logspec log10 hmono amin hS
  rw [power_to_db_def, hvz, habs]
  rw [habs] at hvz
  rw [List.map_map]
  refine List.map_congr_left (fun p hp => ?_)
  have hp_ge : amin ≤ p := hge p hp
  have hp_pos : 0 < p := hpos p hp
  simp only [Function.comp]
  rw [max_eq_right hp_ge, max_eq_right href_ge, zero_sub,
    hdiv p (vmax S) hp_pos href_pos]
  ring_nf

/-- The dB component of `espectro_fft_medio` is `power_to_db` of the
time-averaged power spectrum. -/
theorem espectro_fft_medio_snd (log10 : ℚ → ℚ)
    (stft : ℕ → ℕ → List ℚ → List (List (ℚ × ℚ))) (y : List ℚ) (sr : ℚ)
    (n_fft hop_length : ℕ) :
    (espectro_fft_medio log10 stft y sr n_fft hop_length).2 =
      power_to_db log10 AMIN TOP_DB
        (rowMeans ((stft n_fft hop_length y).map (fun row => row.map cabs2))) :=
  rfl

/-- The frequency component of `espectro_fft_medio` is a linspace from 0
to `sr/2` with one point per averaged bin. -/
theorem espectro_fft_medio_fst (log10 : ℚ → ℚ)
    (stft : ℕ → ℕ → List ℚ → List (List (ℚ × ℚ))) (y : List ℚ) (sr : ℚ)
    (n_fft hop_length : ℕ) :
    (espectro_fft_medio log10 stft y sr n_fft hop_length).1 =
      linspace 0 (sr / 2)
        (rowMeans ((stft n_fft hop_length y).map (fun row => row.map cabs2))).length :=
  rfl

/-- The dB component of `espectro_mel_medio` is `power_to_db` of the
time-averaged Mel powers. -/
theorem espectro_mel_medio_snd (log10 : ℚ → ℚ)
    (melspectrogram : ℕ → ℕ → ℕ → List ℚ → ℚ → List (List ℚ))
    (mel_frequencies : ℕ → ℚ → ℚ → List ℚ) (y : List ℚ) (sr : ℚ)
    (n_fft hop_length n_mels : ℕ) :
    (espectro_mel_medio log10 melspectrogram mel_frequencies y sr n_fft
        hop_length n_mels).2 =
      power_to_db log10 AMIN TOP_DB
        (rowMeans (melspectrogram n_fft hop_length n_mels y sr)) :=
  rfl

/-- The frequency component of `espectro_mel_medio` is the Mel filter
center frequencies. -/
theorem espectro_mel_medio_fst (log10 : ℚ → ℚ)
    (melspectrogram : ℕ → ℕ → ℕ → List ℚ → ℚ → List (List ℚ))
    (mel_frequencies : ℕ → ℚ → ℚ → List ℚ) (y : List ℚ) (sr : ℚ)
    (n_fft hop_length n_mels : ℕ) :
    (espectro_mel_medio log10 melspectrogram mel_frequencies y sr n_fft
        hop_length n_mels).1 = mel_frequencies n_mels 0 (sr / 2) :=
  rfl

/-- Averaging over time frames keeps one entry per row. -/
theorem rowMeans_length (M : List (List ℚ)) :
    (rowMeans M).length = M.length := by
  simp [rowMeans]

/-- Averaging a nonempty list of rows gives a nonempty vector. -/
theorem rowMeans_ne_nil {M : List (List ℚ)} (h : M ≠ []) :
    rowMeans M ≠ [] := by
  cases M with
  | nil => exact absurd rfl h
  | cons a t => simp [rowMeans]

/-- A mapped list is nonempty when the original is. -/
theorem map_ne_nil {α β : Type} {f : α → β} {l : List α} (h : l ≠ []) :
    l.map f ≠ [] := by
  cases l with
  | nil => exact absurd rfl h
  | cons a t => simp

/-- Entry `i` of `linspace a b num`. -/
theorem linspace_getElem (a b : ℚ) (num i : ℕ) (h : i < num) :
    (linspace a b num)[i]? = some (a + (b - a) * i / (num - 1 : ℕ)) := by
  simp only [linspace, List.getElem?_map, List.getElem?_range, h, if_true]
  rfl

/-- Concrete opaque-routine instances used by witnesses: a one-bin,
one-frame STFT, a one-filter one-frame Mel spectrogram, and a one-entry
center-frequency vector. -/
def stftOne : ℕ → ℕ → List ℚ → List (List (ℚ × ℚ)) := fun _ _ _ => [[(1, 0)]]

/-- Constant one-row Mel spectrogram used by witnesses. -/
def melspecOne : ℕ → ℕ → ℕ → List ℚ → ℚ → List (List ℚ) :=
  fun _ _ _ _ _ => [[1]]

/-- Constant one-entry Mel center-frequency vector used by witnesses. -/
def melfreqOne : ℕ → ℚ → ℚ → List ℚ := fun _ _ _ => [0]

/-- C3: for every signal (and any monotone base-10 logarithm, any STFT
and Mel spectrogram with at least one frequency bin or filter), the
maximum element of the decibel vector returned by `espectro_fft_medio` is
`0`, and likewise for `espectro_mel_medio`: `power_to_db` is called with
`ref=np.max`, so the loudest bin of each sample sits at 0 dB. -/
theorem C3_db_max_zero (log10 : ℚ → ℚ) (hmono : Monotone log10)
    (stft : ℕ → ℕ → List ℚ → List (List (ℚ × ℚ)))
    (melspectrogram : ℕ → ℕ → ℕ → List ℚ → ℚ → List (List ℚ))
    (mel_frequencies : ℕ → ℚ → ℚ → List ℚ) (y : List ℚ) (sr : ℚ)
    (n_fft hop_length n_mels : ℕ)
    (hstft : stft n_fft hop_length y ≠ [])
    (hmel : melspectrogram n_fft hop_length n_mels y sr ≠ []) :
    vmax (espectro_fft_medio log10 stft y sr n_fft hop_length).2 = 0 ∧
    vmax (espectro_mel_medio log10 melspectrogram mel_frequencies y sr
      n_fft hop_length n_mels).2 = 0 := by
  constructor
  · rw [espectro_fft_medio_snd]
    exact power_to_db_vmax_zero log10 hmono AMIN TOP_DB
      (by norm_num [TOP_DB]) (rowMeans_ne_nil (map_ne_nil hstft))
  · rw [espectro_mel_medio_snd]
    exact power_to_db_vmax_zero log10 hmono AMIN TOP_DB
      (by norm_num [TOP_DB]) (rowMeans_ne_nil hmel)

/-- Witness for C3 at a concrete monotone logarithm, signal and STFT. -/
theorem C3_db_max_zero_witness :
    vmax (espectro_fft_medio id stftOne [1] SR N_FFT HOP_LENGTH).2 = 0 ∧
    vmax (espectro_mel_medio id melspecOne melfreqOne [1] SR N_FFT
      HOP_LENGTH N_MELS).2 = 0 :=
  C3_db_max_zero id monotone_id stftOne melspecOne melfreqOne [1] SR
    N_FFT HOP_LENGTH N_MELS (by simp [stftOne]) (by simp [melspecOne])

/-- C10: every element of the decibel vectors returned by
`espectro_fft_medio` and `espectro_mel_medio` lies in `[-80, 0]`: no
element exceeds the per-sample `0` dB reference, and the default
`top_db=80` clipping of `librosa.power_to_db` bounds every element from
below by 80 dB under the maximum of the vector. -/
theorem C10_db_bounds (log10 : ℚ → ℚ) (hmono : Monotone log10)
    (stft : ℕ → ℕ → List ℚ → List (List (ℚ × ℚ)))
    (melspectrogram : ℕ → ℕ → ℕ → List ℚ → ℚ → List (List ℚ))
    (mel_frequencies : ℕ → ℚ → ℚ → List ℚ) (y : List ℚ) (sr : ℚ)
    (n_fft hop_length n_mels : ℕ)
    (hstft : stft n_fft hop_length y ≠ [])
    (hmel : melspectrogram n_fft hop_length n_mels y sr ≠ []) :
    (∀ v ∈ (espectro_fft_medio log10 stft y sr n_fft hop_length).2,
      -80 ≤ v ∧ v ≤ 0) ∧
    (∀ v ∈ (espectro_mel_medio log10 melspectrogram mel_frequencies y sr
        n_fft hop_length n_mels).2, -80 ≤ v ∧ v ≤ 0) := by
  constructor
  · rw [espectro_fft_medio_snd]
    intro v hv
    have := power_to_db_mem_bounds log10 hmono AMIN TOP_DB
      (by norm_num [TOP_DB]) (rowMeans_ne_nil (map_ne_nil hstft)) v hv
    rw [TOP_DB] at this
    exact this
  · rw [espectro_mel_medio_snd]
    intro v hv
    have := power_to_db_mem_bounds log10 hmono AMIN TOP_DB
      (by norm_num [TOP_DB]) (rowMeans_ne_nil hmel) v hv
    rw [TOP_DB] at this
    exact this

/-- Evaluation of the linear dB vector at the witness input. -/
theorem espectro_fft_one_eval :
    (espectro_fft_medio id stftOne [1] SR N_FFT HOP_LENGTH).2 = [0] := by
  norm_num [espectro_fft_medio, power_to_db, rowMeans, vmean, vmax, cabs2,
    AMIN, TOP_DB, stftOne]

/-- Witness for C10 at a concrete monotone logarithm, signal and STFT. -/
theorem C10_db_bounds_witness :
    ((0 : ℚ) ∈ (espectro_fft_medio id stftOne [1] SR N_FFT HOP_LENGTH).2) ∧
    (-80 ≤ (0 : ℚ) ∧ (0 : ℚ) ≤ 0) :=
  ⟨by rw [espectro_fft_one_eval]; exact List.mem_singleton.mpr rfl,
    (C10_db_bounds id monotone_id stftOne melspecOne melfreqOne [1] SR
      N_FFT HOP_LENGTH N_MELS (by simp [stftOne]) (by simp [melspecOne])).1 0
      (by rw [espectro_fft_one_eval]; exact List.mem_singleton.mpr rfl)⟩

/-- C5: with the fixed configuration `N_FFT = 2048`, `N_MELS = 40` and
the library contracts that the STFT has `N_FFT/2 + 1` frequency rows,
that the Mel spectrogram has `N_MELS` rows, and that `mel_frequencies`
returns `N_MELS` centers, the linear summarizer returns a decibel vector
and a frequency vector of length `N_FFT/2 + 1 = 1025`, the frequency
vector being linearly spaced from `0` to `sr/2`, and the Mel summarizer
returns a decibel vector and a center-frequency vector of length
`N_MELS = 40`. -/
theorem C5_lengths (log10 : ℚ → ℚ)
    (stft : ℕ → ℕ → List ℚ → List (List (ℚ × ℚ)))
    (melspectrogram : ℕ → ℕ → ℕ → List ℚ → ℚ → List (List ℚ))
    (mel_frequencies : ℕ → ℚ → ℚ → List ℚ) (y : List ℚ) (sr : ℚ)
    (hstft : (stft N_FFT HOP_LENGTH y).length = N_FFT / 2 + 1)
    (hmelrows : (melspectrogram N_FFT HOP_LENGTH N_MELS y sr).length = N_MELS)
    (hmelfreq : (mel_frequencies N_MELS 0 (sr / 2)).length = N_MELS) :
    (espectro_fft_medio log10 stft y sr N_FFT HOP_LENGTH).2.length = 1025 ∧
    (espectro_fft_medio log10 stft y sr N_FFT HOP_LENGTH).1.length = 1025 ∧
    (∀ i : ℕ, i < 1025 →
      (espectro_fft_medio log10 stft y sr N_FFT HOP_LENGTH).1[i]? =
        some ((sr / 2) * i / 1024)) ∧
    (espectro_mel_medio log10 melspectrogram mel_frequencies y sr N_FFT
      HOP_LENGTH N_MELS).2.length = 40 ∧
    (espectro_mel_medio log10 melspectrogram mel_frequencies y sr N_FFT
      HOP_LENGTH N_MELS).1.length = 40 := by
  have hmm :
      (rowMeans ((stft N_FFT HOP_LENGTH y).map (fun row => row.map cabs2))).length
        = 1025 := by
    rw [rowMeans_length, List.length_map, hstft]
    norm_num [N_FFT]
  refine ⟨?_, ?_, ?_, ?_, ?_⟩
  · rw [espectro_fft_medio_snd, power_to_db_length, hmm]
  · rw [espectro_fft_medio_fst, hmm]
    simp [linspace]
  · intro i hi
    rw [espectro_fft_medio_fst, hmm, linspace_getElem 0 (sr / 2) 1025 i hi]
    norm_num
  · rw [espectro_mel_medio_snd, power_to_db_length, rowMeans_length, hmelrows]
    norm_num [N_MELS]
  · rw [espectro_mel_medio_fst, hmelfreq]
    norm_num [N_MELS]

/-- Witness for C5 at concrete library functions satisfying the shape
contracts. -/
theorem C5_lengths_witness :
    (espectro_fft_medio id (fun _ _ _ => List.replicate 1025 [((1 : ℚ), (0 : ℚ))])
      [1] SR N_FFT HOP_LENGTH).2.length = 1025 ∧
    (espectro_fft_medio id (fun _ _ _ => List.replicate 1025 [((1 : ℚ), (0 : ℚ))])
      [1] SR N_FFT HOP_LENGTH).1.length = 1025 ∧
    (espectro_fft_medio id (fun _ _ _ => List.replicate 1025 [((1 : ℚ), (0 : ℚ))])
      [1] SR N_FFT HOP_LENGTH).1[1024]? = some ((SR / 2) * (1024 : ℕ) / 1024) ∧
    (espectro_mel_medio id (fun _ _ _ _ _ => List.replicate 40 [(1 : ℚ)])
      (fun _ _ _ => List.replicate 40 (0 : ℚ)) [1] SR N_FFT HOP_LENGTH
      N_MELS).2.length = 40 ∧
    (espectro_mel_medio id (fun _ _ _ _ _ => List.replicate 40 [(1 : ℚ)])
      (fun _ _ _ => List.replicate 40 (0 : ℚ)) [1] SR N_FFT HOP_LENGTH
      N_MELS).1.length = 40 := by
  have h := C5_lengths id (fun _ _ _ => List.replicate 1025 [((1 : ℚ), (0 : ℚ))])
    (fun _ _ _ _ _ => List.replicate 40 [(1 : ℚ)])
    (fun _ _ _ => List.replicate 40 (0 : ℚ)) [1] SR
    (by norm_num [N_FFT]) (by norm_num [N_MELS]) (by norm_num [N_MELS])
  exact ⟨h.1, h.2.1, h.2.2.1 1024 (by norm_num), h.2.2.2.1, h.2.2.2.2⟩

/-- Modelled from the spec: the claimed dB conversion, elementwise
`10*log10(power / reference)` where the reference is the maximum value
across the averaged vector — with no `amin` floor and no `top_db`
clipping. -/
def spec_db (log10 : ℚ → ℚ) (S : List ℚ) : List ℚ :=
  S.map (fun p => 10 * log10 (p / vmax S))

/-- A rational stand-in for the base-10 logarithm that agrees with the
true `log10` at every point where the C2 counterexample evaluates it:
`log10 1 = 0`, `log10 (10 ^ (-10)) = -10`, `log10 (10 ^ (-12)) = -12`. -/
def log10x : ℚ → ℚ := fun x =>
  if x = 1 then 0
  else if x = 1 / 10 ^ 10 then -10
  else if x = 1 / 10 ^ 12 then -12
  else 37

/-- A two-bin, one-frame STFT whose second bin holds power `10 ^ (-12)`,
below the `amin = 10 ^ (-10)` floor and more than 80 dB below the peak. -/
def stftTwo : ℕ → ℕ → List ℚ → List (List (ℚ × ℚ)) :=
  fun _ _ _ => [[(1, 0)], [(1 / 10 ^ 6, 0)]]

/-- C2 counterexample: the decibel vector returned by
`espectro_fft_medio` is not elementwise `10*log10(power / reference)`.
At averaged powers `[1, 10^(-12)]` the code produces `[0, -80]` (the
second bin is floored at `amin = 10^(-10)` and then clipped at
`top_db = 80` dB below the maximum), while the claimed formula gives
`[0, -120]`. -/
theorem C2_counterexample :
    (espectro_fft_medio log10x stftTwo [1] SR N_FFT HOP_LENGTH).2 ≠
      spec_db log10x
        (rowMeans ((stftTwo N_FFT HOP_LENGTH [1]).map
          (fun row => row.map cabs2))) := by
  norm_num [espectro_fft_medio, spec_db, power_to_db, rowMeans, vmean,
    vmax, cabs2, AMIN, TOP_DB, stftTwo, log10x, max_def, abs]

/-- C2 (amended): for every input whose time-averaged powers are all at
least `amin = 10^(-10)` (so the floor is inactive), and every base-10
logarithm (monotone, satisfying the quotient law on positives), the
decibel vector of the linear summarizer equals, elementwise,
`10*log10(power / reference)` clipped from below at `-80` dB, where the
reference is the maximum of the averaged vector; the Mel summarizer
applies the same conversion to the time-averaged Mel-filtered power. -/
theorem C2_db_conversion_amended (log10 : ℚ → ℚ) (hmono : Monotone log10)
    (hdiv : ∀ a b : ℚ, 0 < a → 0 < b → log10 (a / b) = log10 a - log10 b)
    (stft : ℕ → ℕ → List ℚ → List (List (ℚ × ℚ)))
    (melspectrogram : ℕ → ℕ → ℕ → List ℚ → ℚ → List (List ℚ))
    (mel_frequencies : ℕ → ℚ → ℚ → List ℚ) (y : List ℚ) (sr : ℚ)
    (n_fft hop_length n_mels : ℕ)
    (hge_fft : ∀ p ∈ rowMeans ((stft n_fft hop_length y).map
      (fun row => row.map cabs2)), AMIN ≤ p)
    (hge_mel : ∀ p ∈ rowMeans (melspectrogram n_fft hop_length n_mels y sr),
      AMIN ≤ p) :
    (espectro_fft_medio log10 stft y sr n_fft hop_length).2 =
      (rowMeans ((stft n_fft hop_length y).map (fun row => row.map cabs2))).map
        (fun p => max (10 * log10 (p / vmax (rowMeans
          ((stft n_fft hop_length y).map (fun row => row.map cabs2))))) (-80)) ∧
    (espectro_mel_medio log10 melspectrogram mel_frequencies y sr n_fft
        hop_length n_mels).2 =
      (rowMeans (melspectrogram n_fft hop_length n_mels y sr)).map
        (fun p => max (10 * log10 (p / vmax (rowMeans
          (melspectrogram n_fft hop_length n_mels y sr)))) (-80)) := by
  constructor
  · rw [espectro_fft_medio_snd,
      power_to_db_formula log10 hmono hdiv AMIN TOP_DB
        (by norm_num [AMIN]) hge_fft]
    simp [TOP_DB]
  · rw [espectro_mel_medio_snd,
      power_to_db_formula log10 hmono hdiv AMIN TOP_DB
        (by norm_num [AMIN]) hge_mel]
    simp [TOP_DB]

/-- The constant-zero logarithm stand-in used by the C2 witness: it is
monotone and satisfies the quotient law. -/
def log10zero : ℚ → ℚ := fun _ => 0

/-- Witness for the amended C2 at a concrete logarithm and STFT. -/
theorem C2_db_conversion_amended_witness :
    (espectro_fft_medio log10zero stftOne [1] SR N_FFT HOP_LENGTH).2 =
      (rowMeans ((stftOne N_FFT HOP_LENGTH [1]).map (fun row => row.map cabs2))).map
        (fun p => max (10 * log10zero (p / vmax (rowMeans
          ((stftOne N_FFT HOP_LENGTH [1]).map (fun row => row.map cabs2))))) (-80)) ∧
    (espectro_mel_medio log10zero melspecOne melfreqOne [1] SR N_FFT
        HOP_LENGTH N_MELS).2 =
      (rowMeans (melspecOne N_FFT HOP_LENGTH N_MELS [1] SR)).map
        (fun p => max (10 * log10zero (p / vmax (rowMeans
          (melspecOne N_FFT HOP_LENGTH N_MELS [1] SR)))) (-80)) :=
  C2_db_conversion_amended log10zero monotone_const
    (fun _ _ _ _ => by simp [log10zero]) stftOne melspecOne melfreqOne
    [1] SR N_FFT HOP_LENGTH N_MELS
    (by intro p hp
        simp [rowMeans, vmean, cabs2, stftOne] at hp
        rw [hp]
        norm_num [AMIN])
    (by intro p hp
        simp [rowMeans, vmean, melspecOne] at hp
        rw [hp]
        norm_num [AMIN])

/-- The maximum absolute value of a list is nonnegative. -/
theorem vmax_map_abs_nonneg (l : List ℚ) : 0 ≤ vmax (l.map abs) := by
  cases l with
  | nil => exact le_refl 0
  | cons a t =>
    exact le_trans (abs_nonneg a)
      (le_vmax_of_mem (List.mem_map.mpr ⟨a, List.mem_cons_self _ _, rfl⟩))

/-- If every member of a list is at most a nonnegative `c`, so is its
`vmax` (empty list included). -/
theorem vmax_le_weak {l : List ℚ} {c : ℚ} (hc : 0 ≤ c)
    (h : ∀ x ∈ l, x ≤ c) : vmax l ≤ c := by
  cases l with
  | nil => exact hc
  | cons a t => exact vmax_le (by simp) h

/-- C4: `carregar_limpar_audio` normalizes the trimmed signal by dividing
every sample by `max(|sample|) + 1e-9`; the maximum absolute amplitude
of the returned signal is at most 1, and it is strictly positive unless the
trimmed input is all-zero. -/
theorem C4_normalization (load : String → ℚ → Option (List ℚ))
    (trim : ℚ → List ℚ → List ℚ) (path : String) (sr top_db : ℚ)
    (y : List ℚ) (hload : load path sr = some y) :
    carregar_limpar_audio load trim path sr top_db =
      some ((trim top_db y).map
        (fun s => s / (vmax ((trim top_db y).map abs) + 1 / 10 ^ 9)), sr) ∧
    vmax ((((trim top_db y).map
      (fun s => s / (vmax ((trim top_db y).map abs) + 1 / 10 ^ 9)))).map abs) ≤ 1 ∧
    ((∃ s ∈ trim top_db y, s ≠ 0) →
      0 < vmax ((((trim top_db y).map
        (fun s => s / (vmax ((trim top_db y).map abs) + 1 / 10 ^ 9)))).map abs)) := by
  set t := trim top_db y with ht
  set V := vmax (t.map abs) with hV
  set M := V + 1 / 10 ^ 9 with hM
  have hV0 : 0 ≤ V := vmax_map_abs_nonneg t
  have hMpos : 0 < M := by rw [hM]; positivity
  have habs_map : (t.map (fun s => s / M)).map abs =
      (t.map abs).map (fun a => a / M) := by
    rw [List.map_map, List.map_map]
    refine List.map_congr_left (fun s _ => ?_)
    simp only [Function.comp]
    rw [abs_div, abs_of_pos hMpos]
  refine ⟨?_, ?_, ?_⟩
  · simp only [carregar_limpar_audio, hload, Option.map_some']
  · rw [habs_map]
    refine vmax_le_weak (by norm_num) ?_
    intro x hx
    rcases List.mem_map.mp hx with ⟨a, ha, rfl⟩
    have haV : a ≤ V := le_vmax_of_mem ha
    rw [div_le_one hMpos]
    rw [hM]
    linarith
  · rintro ⟨s, hs, hs0⟩
    have hsa : |s| ∈ t.map abs := List.mem_map.mpr ⟨s, hs, rfl⟩
    have hspos : 0 < |s| := abs_pos.mpr hs0
    have hmem : |s| / M ∈ (t.map (fun x => x / M)).map abs := by
      rw [habs_map]
      exact List.mem_map.mpr ⟨|s|, hsa, rfl⟩
    exact lt_of_lt_of_le (div_pos hspos hMpos) (le_vmax_of_mem hmem)

/-- Concrete fallible loader used by the C4 witness. -/
def loadEx : String → ℚ → Option (List ℚ) := fun _ _ => some [2, -4]

/-- Concrete (identity) trimmer used by the C4 witness. -/
def trimEx : ℚ → List ℚ → List ℚ := fun _ l => l

/-- Witness for C4 at a concrete loader, trimmer and signal. -/
theorem C4_normalization_witness :
    carregar_limpar_audio loadEx trimEx "p" SR 40 =
      some ((trimEx 40 [2, -4]).map
        (fun s => s / (vmax ((trimEx 40 [2, -4]).map abs) + 1 / 10 ^ 9)), SR) ∧
    vmax ((((trimEx 40 [2, -4]).map
      (fun s => s / (vmax ((trimEx 40 [2, -4]).map abs) + 1 / 10 ^ 9)))).map abs) ≤ 1 ∧
    0 < vmax ((((trimEx 40 [2, -4]).map
      (fun s => s / (vmax ((trimEx 40 [2, -4]).map abs) + 1 / 10 ^ 9)))).map abs) := by
  have h := C4_normalization loadEx trimEx "p" SR 40 [2, -4] rfl
  exact ⟨h.1, h.2.1, h.2.2 ⟨2, by simp [trimEx], by norm_num⟩⟩

/-- Concrete presence predicates and per-file processors used by the
loop-claim witnesses. -/
def presentAll : String → Bool := fun _ => true

/-- Presence predicate for an empty directory. -/
def presentNone : String → Bool := fun _ => false

/-- A per-file processor that always decodes, with one-entry features. -/
def procEx : String → Option (List ℚ × List ℚ) := fun _ => some ([0], [0])

/-- A per-file processor that always raises on decode. -/
def procNone : String → Option (List ℚ × List ℚ) := fun _ => none

/-- C1: over any set of present files (when every present file decodes),
the three accumulated sequences `X_fft_list`, `X_mel_list` and `y_labels`
have equal length, that length is the number of expected files actually
present, and entry `i` of each sequence comes from the `i`-th present
pair in discovery order (outer loop over `n`, inner over `m`), with label
`n`; in particular an entry produced from `corda3_5.wav` carries label 3. -/
theorem C1_parallel_sequences (present : String → Bool)
    (proc : String → Option (List ℚ × List ℚ))
    (hok : ∀ nm ∈ expectedPairs, present (filepath nm.1 nm.2) = true →
      (proc (filepath nm.1 nm.2)).isSome) :
    (run present proc).2 = some ((loop present proc expectedPairs).xfft,
      (loop present proc expectedPairs).xmel,
      (loop present proc expectedPairs).labels) ∧
    (loop present proc expectedPairs).xfft.length =
      (presentPairs present expectedPairs).length ∧
    (loop present proc expectedPairs).xmel.length =
      (presentPairs present expectedPairs).length ∧
    (loop present proc expectedPairs).labels.length =
      (presentPairs present expectedPairs).length ∧
    (∀ (i : ℕ) (nm : ℕ × ℕ),
      (presentPairs present expectedPairs)[i]? = some nm →
      (loop present proc expectedPairs).labels[i]? = some nm.1 ∧
      (loop present proc expectedPairs).xfft[i]? =
        (proc (filepath nm.1 nm.2)).map Prod.fst ∧
      (loop present proc expectedPairs).xmel[i]? =
        (proc (filepath nm.1 nm.2)).map Prod.snd) ∧
    (∀ i : ℕ, (presentPairs present expectedPairs)[i]? = some (3, 5) →
      (loop present proc expectedPairs).labels[i]? = some 3) := by
  obtain ⟨h1, h2, h3, h4, h5, h6⟩ := loop_spec present proc expectedPairs hok
  refine ⟨?_, h4, h5, ?_, h6, ?_⟩
  · simp [run, h1]
  · rw [h3, List.length_map]
  · intro i hi
    exact (h6 i (3, 5) hi).1

/-- Witness for C1: all 180 files present, every decode succeeds; the
pair `(3, 5)` sits at index 64 of the discovery order and its label is 3. -/
theorem C1_parallel_sequences_witness :
    (run presentAll procEx).2 = some ((loop presentAll procEx expectedPairs).xfft,
      (loop presentAll procEx expectedPairs).xmel,
      (loop presentAll procEx expectedPairs).labels) ∧
    (loop presentAll procEx expectedPairs).labels.length =
      (presentPairs presentAll expectedPairs).length ∧
    (loop presentAll procEx expectedPairs).labels[64]? = some 3 := by
  have h := C1_parallel_sequences presentAll procEx (fun _ _ _ => rfl)
  refine ⟨h.1, h.2.2.2.1, ?_⟩
  refine h.2.2.2.2.2 64 ?_
  have hpp : presentPairs presentAll expectedPairs = expectedPairs := by
    simp [presentPairs, presentAll]
  rw [hpp]
  decide

/-- C6: an absent expected file produces a warning event for its path,
appends nothing to any of the three sequences, and the loop continues
with the remaining filenames; over a full run (with no decode failures)
exactly one warning names each missing path; and a decode error on a
present file is not caught: the run produces no result arrays. -/
theorem C6_missing_file_handling (present : String → Bool)
    (proc : String → Option (List ℚ × List ℚ)) :
    (∀ (n m : ℕ) (rest : List (ℕ × ℕ)), present (filepath n m) = false →
      loop present proc ((n, m) :: rest) =
        ⟨Ev.warn (filepath n m) :: (loop present proc rest).trace,
          (loop present proc rest).xfft, (loop present proc rest).xmel,
          (loop present proc rest).labels, (loop present proc rest).aborted⟩) ∧
    (∀ nm ∈ expectedPairs, present (filepath nm.1 nm.2) = false →
      (∀ q ∈ expectedPairs, present (filepath q.1 q.2) = true →
        (proc (filepath q.1 q.2)).isSome) →
      (loop present proc expectedPairs).trace.count
        (Ev.warn (filepath nm.1 nm.2)) = 1) ∧
    (∀ nm ∈ expectedPairs, present (filepath nm.1 nm.2) = true →
      proc (filepath nm.1 nm.2) = none →
      (run present proc).2 = none) := by
  refine ⟨?_, ?_, ?_⟩
  · intro n m rest h
    exact loop_cons_absent present proc n m rest h
  · rintro ⟨n₀, m₀⟩ hmem habs hok
    obtain ⟨-, h2, -⟩ := loop_spec present proc expectedPairs hok
    rw [h2]
    exact count_warn_traceOf_one present n₀ m₀ expectedPairs hmem habs
      expectedPairs_nodup
      (fun q hq hfp => filepath_injOn q hq (n₀, m₀) hmem hfp)
  · intro nm hmem hpres hnone
    have habort := loop_aborted_of_fail present proc expectedPairs
      ⟨nm, hmem, hpres, hnone⟩
    simp [run, habort]

/-- Witness for C6: a concrete absent file warns and skips, warns exactly
once over the full run, and a concrete decode failure aborts the run. -/
theorem C6_missing_file_handling_witness :
    loop presentNone procEx [(1, 1)] =
      ⟨Ev.warn (filepath 1 1) :: (loop presentNone procEx []).trace,
        (loop presentNone procEx []).xfft, (loop presentNone procEx []).xmel,
        (loop presentNone procEx []).labels,
        (loop presentNone procEx []).aborted⟩ ∧
    (loop presentNone procEx expectedPairs).trace.count
      (Ev.warn (filepath 1 1)) = 1 ∧
    (run presentAll procNone).2 = none := by
  have h := C6_missing_file_handling presentNone procEx
  have h' := C6_missing_file_handling presentAll procNone
  refine ⟨h.1 1 1 [] rfl, ?_, h'.2.2 (1, 1) (by decide) rfl rfl⟩
  exact h.2.1 (1, 1) (by decide) rfl
    (fun q _ hq => by simp [presentNone] at hq)

/-- Binding a one-element chunk per element is a map. -/
theorem flatMap_singleton_eq_map {α β : Type} (f : α → β) (l : List α) :
    (l.flatMap fun x => [f x]) = l.map f := by
  induction l with
  | nil => rfl
  | cons a t ih => simp [ih]

/-- When every path is absent, the loop trace is one warning per pair. -/
theorem traceOf_all_absent (present : String → Bool)
    (pairs : List (ℕ × ℕ)) (h : ∀ path, present path = false) :
    traceOf present pairs =
      pairs.map (fun nm => Ev.warn (filepath nm.1 nm.2)) := by
  rw [traceOf]
  rw [show (fun nm : ℕ × ℕ =>
      if present (filepath nm.1 nm.2) then [Ev.processing (filepath nm.1 nm.2)]
      else [Ev.warn (filepath nm.1 nm.2)]) =
      (fun nm : ℕ × ℕ => [Ev.warn (filepath nm.1 nm.2)]) from
    funext (fun nm => by rw [h, if_neg (by simp)])]
  exact flatMap_singleton_eq_map _ pairs

/-- C7: after all 180 candidate names are visited (and no decode error
occurred), the three sequences are frozen into arrays with one row per
present sample, the feature rows all having the fixed feature length
of the processor; and a run over a directory with no matching files emits
180 warning lines, raises nothing, and still writes three zero-length
arrays. -/
theorem C7_finalization (present : String → Bool)
    (proc : String → Option (List ℚ × List ℚ)) :
    ((∀ nm ∈ expectedPairs, present (filepath nm.1 nm.2) = true →
        (proc (filepath nm.1 nm.2)).isSome) →
      (run present proc).2 = some ((loop present proc expectedPairs).xfft,
        (loop present proc expectedPairs).xmel,
        (loop present proc expectedPairs).labels) ∧
      (loop present proc expectedPairs).xfft.length =
        (presentPairs present expectedPairs).length ∧
      (loop present proc expectedPairs).xmel.length =
        (presentPairs present expectedPairs).length ∧
      (loop present proc expectedPairs).labels.length =
        (presentPairs present expectedPairs).length ∧
      (∀ L : ℕ, (∀ path fm, proc path = some fm → fm.1.length = L) →
        ∀ v ∈ (loop present proc expectedPairs).xfft, v.length = L) ∧
      (∀ L : ℕ, (∀ path fm, proc path = some fm → fm.2.length = L) →
        ∀ v ∈ (loop present proc expectedPairs).xmel, v.length = L)) ∧
    ((∀ path, present path = false) →
      (run present proc).1 = traceOf present expectedPairs ++ saves ∧
      (loop present proc expectedPairs).trace.length = 180 ∧
      (∀ e ∈ (loop present proc expectedPairs).trace, ∃ p, e = Ev.warn p) ∧
      (run present proc).2 = some ([], [], [])) := by
  constructor
  · intro hok
    obtain ⟨h1, h2, h3, h4, h5, h6⟩ := loop_spec present proc expectedPairs hok
    refine ⟨by simp [run, h1], h4, h5, by rw [h3, List.length_map], ?_, ?_⟩
    · intro L hL v hv
      obtain ⟨i, hi⟩ := List.mem_iff_getElem?.mp hv
      have hilt : i < (presentPairs present expectedPairs).length := by
        rw [← h4]
        exact (List.getElem?_eq_some_iff.mp hi).1
      obtain ⟨-, hx2, -⟩ :=
        h6 i ((presentPairs present expectedPairs).get ⟨i, hilt⟩)
          (by simp [List.getElem?_eq_getElem hilt])
      rw [hi] at hx2
      obtain ⟨fm, hfm, hfmv⟩ := Option.map_eq_some'.mp hx2.symm
      rw [← hfmv]
      exact hL _ fm hfm
    · intro L hL v hv
      obtain ⟨i, hi⟩ := List.mem_iff_getElem?.mp hv
      have hilt : i < (presentPairs present expectedPairs).length := by
        rw [← h5]
        exact (List.getElem?_eq_some_iff.mp hi).1
      obtain ⟨-, -, hx3⟩ :=
        h6 i ((presentPairs present expectedPairs).get ⟨i, hilt⟩)
          (by simp [List.getElem?_eq_getElem hilt])
      rw [hi] at hx3
      obtain ⟨fm, hfm, hfmv⟩ := Option.map_eq_some'.mp hx3.symm
      rw [← hfmv]
      exact hL _ fm hfm
  · intro hall
    have hok : ∀ nm ∈ expectedPairs, present (filepath nm.1 nm.2) = true →
        (proc (filepath nm.1 nm.2)).isSome := by
      intro nm _ hp
      rw [hall] at hp
      cases hp
    obtain ⟨h1, h2, h3, h4, h5, h6⟩ := loop_spec present proc expectedPairs hok
    have hppnil : presentPairs present expectedPairs = [] := by
      simp [presentPairs, hall]
    have hxf : (loop present proc expectedPairs).xfft = [] := by
      rw [← List.length_eq_zero, h4, hppnil]
      rfl
    have hxm : (loop present proc expectedPairs).xmel = [] := by
      rw [← List.length_eq_zero, h5, hppnil]
      rfl
    have hlab : (loop present proc expectedPairs).labels = [] := by
      rw [h3, hppnil]
      rfl
    refine ⟨by simp [run, h1, h2], ?_, ?_, by simp [run, h1, hxf, hxm, hlab]⟩
    · rw [h2, traceOf_all_absent present expectedPairs hall,
        List.length_map, expectedPairs_length]
    · intro e he
      rw [h2, traceOf_all_absent present expectedPairs hall] at he
      obtain ⟨nm, -, rfl⟩ := List.mem_map.mp he
      exact ⟨filepath nm.1 nm.2, rfl⟩

/-- Witness for C7: a run over an empty directory completes, logs 180
lines, and writes three zero-length arrays. -/
theorem C7_finalization_witness :
    (run presentNone procEx).2 = some ((loop presentNone procEx expectedPairs).xfft,
      (loop presentNone procEx expectedPairs).xmel,
      (loop presentNone procEx expectedPairs).labels) ∧
    (loop presentNone procEx expectedPairs).trace.length = 180 ∧
    (run presentNone procEx).2 = some ([], [], []) := by
  have h := C7_finalization presentNone procEx
  have hok : ∀ nm ∈ expectedPairs, presentNone (filepath nm.1 nm.2) = true →
      (procEx (filepath nm.1 nm.2)).isSome :=
    fun _ _ hq => by simp [presentNone] at hq
  have hall : ∀ path, presentNone path = false := fun _ => rfl
  exact ⟨(h.1 hok).1, (h.2 hall).2.1, (h.2 hall).2.2.2⟩

/-- C8: the pipeline is deterministic: two runs over an unchanged input
directory (same presence of files, same decoded contents) produce
identical traces and identical output arrays. -/
theorem C8_deterministic (present₁ present₂ : String → Bool)
    (proc₁ proc₂ : String → Option (List ℚ × List ℚ))
    (hpres : ∀ path, present₁ path = present₂ path)
    (hproc : ∀ path, proc₁ path = proc₂ path) :
    run present₁ proc₁ = run present₂ proc₂ := by
  rw [funext hpres, funext hproc]

/-- Witness for C8 at a concrete directory state. -/
theorem C8_deterministic_witness :
    run presentAll procEx = run presentAll procEx :=
  C8_deterministic presentAll presentAll procEx procEx
    (fun _ => rfl) (fun _ => rfl)

/-- C9: no `np.save` event occurs inside the processing loop; the full
trace is the loop trace followed by the three saves exactly when the loop
completed; and a run aborted by an uncaught error contains no save event
at all. -/
theorem C9_saves_after_loop (present : String → Bool)
    (proc : String → Option (List ℚ × List ℚ)) :
    (∀ e ∈ (loop present proc expectedPairs).trace, e.isSave = false) ∧
    (run present proc).1 = (loop present proc expectedPairs).trace ++
      (if (loop present proc expectedPairs).aborted then [] else saves) ∧
    ((run present proc).2 = none →
      ∀ e ∈ (run present proc).1, e.isSave = false) := by
  refine ⟨loop_no_save present proc expectedPairs, ?_, ?_⟩
  · by_cases h : (loop present proc expectedPairs).aborted
    · simp [run, h]
    · simp [run, h]
  · intro hnone e he
    by_cases h : (loop present proc expectedPairs).aborted
    · have htr : (run present proc).1 =
          (loop present proc expectedPairs).trace := by
        simp [run, h]
      rw [htr] at he
      exact loop_no_save present proc expectedPairs e he
    · exfalso
      simp [run, h] at hnone

/-- Witness for C9 at a concrete directory state. -/
theorem C9_saves_after_loop_witness :
    (run presentAll procEx).1 = (loop presentAll procEx expectedPairs).trace ++
      (if (loop presentAll procEx expectedPairs).aborted then [] else saves) :=
  (C9_saves_after_loop presentAll procEx).2.1

end CordasFeatures
